import Mathlib

/-!
Verification of the cryptocli CLI (src/crypto.py): a shallow embedding of its
resource cache, validators, config store, gains computation and watch loop,
with theorems settling the spec claims about them.

Python dicts holding the user config are embedded as association lists from
string keys to string values; the two cache files are embedded as an explicit
file-state value; the external CoinGecko API is a parameter (a list of coins /
currencies, or a price oracle function); exceptions are embedded as
`Except String` results or an explicit error field.
-/

/-- A coin record as stored in the coin cache file: sourced verbatim from the
API coin list (`{id, symbol, name}`). Embeds the dicts scanned by
`validate_coin` and `config` in src/crypto.py. -/
structure Coin where
  id : String
  symbol : String
  name : String
deriving DecidableEq, Repr

/-- Embeds the match condition
`value == coin['id'] or value == coin['name'] or value == coin['symbol']`
used by `validate_coin` (src/crypto.py line 52) and by the `config`
subcommand (line 169). Exact, case-sensitive string comparison. -/
def matchesCoin (value : String) (c : Coin) : Bool :=
  value == c.id || value == c.name || value == c.symbol

/-- Embeds `validate_coin` (src/crypto.py lines 49-54), parameterised by the
cached coin list it scans (the code obtains it via `get_resources("coins")`):
linear scan, first match wins, returns the canonical id `coin['id']`; raises
`click.BadParameter` (embedded as `Except.error`) when no coin matches. -/
def validate_coin (all_coins : List Coin) (value : String) : Except String String :=
  match all_coins with
  | [] => Except.error (value ++ " is not a valid cryptocurrency")
  | coin :: rest =>
    if matchesCoin value coin then Except.ok coin.id else validate_coin rest value

/-- Embeds `validate_currency` (src/crypto.py lines 56-61), parameterised by
the cached currency list (the code obtains it via `get_resources("currencies")`):
linear scan for `value == currency`, returns the value unchanged on a match;
raises `click.BadParameter` (embedded as `Except.error`) otherwise. -/
def validate_currency (all_currencies : List String) (value : String) :
    Except String String :=
  match all_currencies with
  | [] => Except.error (value ++ " is not a valid currency denomination")
  | currency :: rest =>
    if value = currency then Except.ok value else validate_currency rest value

lemma validate_coin_cons (c : Coin) (rest : List Coin) (v : String) :
    validate_coin (c :: rest) v =
      if matchesCoin v c then Except.ok c.id else validate_coin rest v := rfl

lemma validate_coin_skip (pre l : List Coin) (v : String)
    (h : ∀ x ∈ pre, matchesCoin v x = false) :
    validate_coin (pre ++ l) v = validate_coin l v := by
  induction pre with
  | nil => rfl
  | cons p pre ih =>
    have hp : matchesCoin v p = false := h p (List.mem_cons_self p pre)
    simp only [List.cons_append, validate_coin_cons, hp, Bool.false_eq_true, if_false]
    exact ih fun x hx => h x (List.mem_cons_of_mem p hx)

lemma validate_coin_none (cs : List Coin) (v : String)
    (h : ∀ x ∈ cs, matchesCoin v x = false) :
    validate_coin cs v = Except.error (v ++ " is not a valid cryptocurrency") := by
  induction cs with
  | nil => rfl
  | cons c rest ih =>
    have hc : matchesCoin v c = false := h c (List.mem_cons_self c rest)
    simp only [validate_coin_cons, hc, Bool.false_eq_true, if_false]
    exact ih fun x hx => h x (List.mem_cons_of_mem c hx)

lemma validate_coin_ok_mem (cs : List Coin) (v i : String)
    (h : validate_coin cs v = Except.ok i) : ∃ c, c ∈ cs ∧ c.id = i := by
  induction cs with
  | nil => simp [validate_coin] at h
  | cons c rest ih =>
    rw [validate_coin_cons] at h
    by_cases hm : matchesCoin v c
    · refine ⟨c, List.mem_cons_self c rest, ?_⟩
      simp [hm] at h
      exact h
    · simp [hm] at h
      obtain ⟨c0, hc0, hid⟩ := ih h
      exact ⟨c0, List.mem_cons_of_mem c hc0, hid⟩

lemma validate_currency_ok_iff (cs : List String) (v : String) :
    validate_currency cs v = Except.ok v ↔ v ∈ cs := by
  induction cs with
  | nil => simp [validate_currency]
  | cons c rest ih =>
    by_cases hv : v = c
    · subst hv
      simp [validate_currency]
    · simp [validate_currency, hv, ih]

lemma validate_currency_ok_val (cs : List String) (v w : String)
    (h : validate_currency cs v = Except.ok w) : w = v ∧ v ∈ cs := by
  induction cs with
  | nil => simp [validate_currency] at h
  | cons c rest ih =>
    by_cases hv : v = c
    · subst hv
      simp [validate_currency] at h
      exact ⟨h.symm, List.mem_cons_self v rest⟩
    · simp [validate_currency, hv] at h
      obtain ⟨hw, hm⟩ := ih h
      exact ⟨hw, List.mem_cons_of_mem c hm⟩

lemma validate_currency_err_iff (cs : List String) (v : String) :
    validate_currency cs v =
      Except.error (v ++ " is not a valid currency denomination") ↔ v ∉ cs := by
  induction cs with
  | nil => simp [validate_currency]
  | cons c rest ih =>
    by_cases hv : v = c
    · subst hv
      simp [validate_currency]
    · simp [validate_currency, hv, ih]

/-- State of a cache file under the `.crypto` directory: absent (opening it
raises `FileNotFoundError`), corrupt (the file exists but does not hold valid
JSON, as left behind when `get_resources` crashes mid-write), or valid JSON
holding a list. -/
inductive FileState (α : Type) where
  | absent : FileState α
  | corrupt : FileState α
  | valid : List α → FileState α
deriving DecidableEq, Repr

/-- Lexicographic comparison of character lists by code point, embedding
Python string comparison `<=` as used by `sorted()` on the currency codes. -/
def charListLe : List Char → List Char → Bool
  | [], _ => true
  | _ :: _, [] => false
  | x :: xs, y :: ys =>
    if x.toNat < y.toNat then true
    else if y.toNat < x.toNat then false
    else charListLe xs ys

/-- Python string comparison `a <= b`: lexicographic on code points. -/
def pyStrLe (a b : String) : Bool := charListLe a.data b.data

/-- Insertion of a string into a sorted list, ascending, used to embed
Python `sorted()` on a list of strings. -/
def insertSorted (x : String) : List String → List String
  | [] => [x]
  | y :: ys => if pyStrLe x y then x :: y :: ys else y :: insertSorted x ys

/-- Embeds Python `sorted()` on a list of strings: insertion sort. -/
def pySorted (l : List String) : List String := l.foldr insertSorted []

/-- Outcome of one `get_resources` call: the value returned (or the exception
raised), the state of the cache file afterwards, and whether the external API
was called during this invocation. -/
structure ResOutcome (α : Type) where
  result : Except String (List α)
  file : FileState α
  network : Bool
deriving Repr

/-- Embeds `get_resources("currencies")` (src/crypto.py lines 26-46),
parameterised by the cache file state and by the list the API would return
(`cg.get_supported_vs_currencies()`). On a hit the parsed file contents are
returned as-is with no network call; on a miss the file is opened for
writing, the API list is fetched, its sorted copy is dumped to the file, and
the unsorted fetched list is returned. A corrupt file makes `json.load`
raise (not `FileNotFoundError`), so the miss branch is not taken. -/
def get_resources_currencies (file : FileState String) (api : List String) :
    ResOutcome String :=
  match file with
  | FileState.valid l => ⟨Except.ok l, FileState.valid l, false⟩
  | FileState.corrupt => ⟨Except.error "json.decoder.JSONDecodeError", FileState.corrupt, false⟩
  | FileState.absent => ⟨Except.ok api, FileState.valid (pySorted api), true⟩

/-- Embeds `get_resources("coins")` (src/crypto.py lines 26-46),
parameterised by the cache file state and by the coin list the API would
return (`cg.get_coins_list()`). On a hit the parsed file contents are
returned as-is with no network call. On a miss the file is opened for
writing (truncating it), the API list is fetched, and `sorted(from_api)` is
evaluated: the list elements are dicts, and comparing two dicts raises
`TypeError`, so whenever the fetched list has at least two records the call
crashes and the truncated file is left behind as invalid JSON (`corrupt`);
with fewer than two records `sorted` performs no comparison and the call
succeeds. -/
def get_resources_coins (file : FileState Coin) (api : List Coin) :
    ResOutcome Coin :=
  match file with
  | FileState.valid l => ⟨Except.ok l, FileState.valid l, false⟩
  | FileState.corrupt => ⟨Except.error "json.decoder.JSONDecodeError", FileState.corrupt, false⟩
  | FileState.absent =>
    if 2 ≤ api.length then
      ⟨Except.error "TypeError: dict is not orderable", FileState.corrupt, true⟩
    else
      ⟨Except.ok api, FileState.valid api, true⟩

/-- Lookup in the config mapping, embedding `settings.get`-style access to
the JSON object parsed from `defaults.json` (an association list). -/
def lookupKey (m : List (String × String)) (k : String) : Option String :=
  (m.find? (fun kv => kv.1 == k)).map (fun kv => kv.2)

/-- Update of the config mapping, embedding `settings[k] = v` on the Python
dict: replaces the value at an existing key, appends otherwise. -/
def setKey (m : List (String × String)) (k v : String) : List (String × String) :=
  match m with
  | [] => [(k, v)]
  | kv :: rest => if kv.1 = k then (k, v) :: rest else kv :: setKey rest k v

/-- Embeds the evaluation of `default=settings['coin']` /
`default=settings['currency']` on the option declarations of `main`
(src/crypto.py lines 65-66): a plain dict subscript, which raises `KeyError`
when the key is absent from the stored config. -/
def optionDefault (settings : List (String × String)) (key : String) :
    Except String String :=
  match lookupKey settings key with
  | some v => Except.ok v
  | none => Except.error ("KeyError: " ++ key)

/-- Embeds the percentage-change computation of `gains`
(src/crypto.py line 240): `(end_price - start_price) / start_price * 100`,
prices embedded as rationals. -/
def gainsPercent (start_price end_price : ℚ) : ℚ :=
  (end_price - start_price) / start_price * 100

/-- Embeds the direction word of `gains` (src/crypto.py line 241):
`'increased' if percent_change > 0 else 'decreased'`. -/
def gainsWord (start_price end_price : ℚ) : String :=
  if 0 < gainsPercent start_price end_price then "increased" else "decreased"

/-- Embeds the `gains` subcommand body (src/crypto.py lines 227-244):
dates as integers (only their order matters), `today` the value of
`datetime.today()` at check time, and `fetch` the historical-price oracle
(`cg.get_coin_history_by_id` composed with the field accesses). Date
validation happens before any price fetch; on valid dates the two prices are
fetched and the percent change and direction word are produced. -/
def gainsCmd (fetch : ℤ → ℚ) (start_date end_date today : ℤ) :
    Except String (ℚ × String) :=
  if end_date < start_date then
    Except.error "Start date must come before end date"
  else if today < end_date ∨ today < start_date then
    Except.error "Dates cannot be in the future"
  else
    let start_price := fetch start_date
    let end_price := fetch end_date
    Except.ok (gainsPercent start_price end_price, gainsWord start_price end_price)

/-- Embeds the watch loop of the `price` subcommand (src/crypto.py lines
89-95) with `stop` supplied (non-None): each iteration increments
`num_loops`, fetches the price and echoes exactly one price line (recorded
here as the iteration number), then breaks when
`interval * num_loops >= stop * 60`, else sleeps and repeats. `fuel` bounds
the recursion; `some out` means the loop terminated having printed the lines
in `out`, `none` means the fuel ran out first. -/
def watchRun (interval stop60 : ℤ) : ℕ → ℕ → Option (List ℕ)
  | 0, _ => none
  | fuel + 1, num_loops =>
    let n := num_loops + 1
    if stop60 ≤ interval * (n : ℤ) then some [n]
    else (watchRun interval stop60 fuel n).map (fun out => n :: out)

/-- Outcome of one run of the `config` subcommand: the in-memory `settings`
mapping afterwards, the contents of the `defaults.json` file afterwards, and
the `click.BadParameter` message when one was raised. -/
structure ConfigOutcome where
  settings : List (String × String)
  disk : List (String × String)
  error : Option String
deriving DecidableEq, Repr

/-- Embeds the `config` subcommand (src/crypto.py lines 144-178),
parameterised by the cached currency and coin lists, the in-memory
`settings` mapping, and the current `defaults.json` contents (`disk`).
Faithful to the source order: the currency default is validated and applied
to the in-memory mapping first; then the coin default is validated and
applied; the file is rewritten wholesale only after both blocks, so an
exception in either block leaves the file untouched (the view-only printing
branch does not affect state and is not modelled). -/
def configCmd (all_currencies : List String) (all_coins : List Coin)
    (settings disk : List (String × String))
    (currency_default coin_default : Option String) : ConfigOutcome :=
  let step1 : Except String (List (String × String)) :=
    match currency_default with
    | none => Except.ok settings
    | some cd =>
      if cd ∈ all_currencies then Except.ok (setKey settings "currency" cd)
      else Except.error (cd ++ " is not a valid currency")
  match step1 with
  | Except.error e => ⟨settings, disk, some e⟩
  | Except.ok st1 =>
    match coin_default with
    | none => ⟨st1, st1, none⟩
    | some kd =>
      match all_coins.find? (fun c => matchesCoin kd c) with
      | some c => ⟨setKey st1 "coin" c.id, setKey st1 "coin" c.id, none⟩
      | none => ⟨st1, disk, some (kd ++ " is not a valid coin")⟩

/-- C3: for every coin in the coin cache, `validate_coin` applied to that
coin's id, name, and symbol each return that coin's canonical id (exact
case-sensitive match, first match wins: the coin is taken here as the first
cache entry matching each queried field, the cache being split as
`pre ++ c :: post` with no match in `pre`); and `validate_coin` fails with
`BadParameter` when no cached coin matches the input on any of the three
fields. -/
theorem validate_coin_spec (pre post cs : List Coin) (c : Coin) (v : String)
    (hpre : ∀ x ∈ pre, matchesCoin c.id x = false ∧ matchesCoin c.name x = false ∧
      matchesCoin c.symbol x = false)
    (hnone : ∀ x ∈ cs, matchesCoin v x = false) :
    validate_coin (pre ++ c :: post) c.id = Except.ok c.id ∧
    validate_coin (pre ++ c :: post) c.name = Except.ok c.id ∧
    validate_coin (pre ++ c :: post) c.symbol = Except.ok c.id ∧
    validate_coin cs v = Except.error (v ++ " is not a valid cryptocurrency") := by
  have hid : matchesCoin c.id c = true := by simp [matchesCoin]
  have hname : matchesCoin c.name c = true := by simp [matchesCoin]
  have hsym : matchesCoin c.symbol c = true := by simp [matchesCoin]
  refine ⟨?_, ?_, ?_, validate_coin_none cs v hnone⟩
  · rw [validate_coin_skip pre (c :: post) c.id (fun x hx => (hpre x hx).1),
      validate_coin_cons, if_pos hid]
  · rw [validate_coin_skip pre (c :: post) c.name (fun x hx => (hpre x hx).2.1),
      validate_coin_cons, if_pos hname]
  · rw [validate_coin_skip pre (c :: post) c.symbol (fun x hx => (hpre x hx).2.2),
      validate_coin_cons, if_pos hsym]

/-- Witness for C3: in a cache holding bitcoin then ethereum, the ethereum
record is found by id, name and symbol, and an unknown string is rejected. -/
theorem validate_coin_spec_witness :
    validate_coin [Coin.mk "bitcoin" "btc" "Bitcoin", Coin.mk "ethereum" "eth" "Ethereum"]
      "ethereum" = Except.ok "ethereum" ∧
    validate_coin [Coin.mk "bitcoin" "btc" "Bitcoin", Coin.mk "ethereum" "eth" "Ethereum"]
      "Ethereum" = Except.ok "ethereum" ∧
    validate_coin [Coin.mk "bitcoin" "btc" "Bitcoin", Coin.mk "ethereum" "eth" "Ethereum"]
      "eth" = Except.ok "ethereum" ∧
    validate_coin [Coin.mk "bitcoin" "btc" "Bitcoin"] "dogecoin" =
      Except.error ("dogecoin" ++ " is not a valid cryptocurrency") :=
  validate_coin_spec [Coin.mk "bitcoin" "btc" "Bitcoin"] []
    [Coin.mk "bitcoin" "btc" "Bitcoin"] (Coin.mk "ethereum" "eth" "Ethereum")
    "dogecoin" (by decide) (by decide)

/-- C4: `validate_currency` returns its input unchanged exactly when the
input is a member of the cached currency list, and fails with `BadParameter`
exactly when it is not. -/
theorem validate_currency_spec (cs : List String) (v : String) :
    (validate_currency cs v = Except.ok v ↔ v ∈ cs) ∧
    (validate_currency cs v =
      Except.error (v ++ " is not a valid currency denomination") ↔ v ∉ cs) :=
  ⟨validate_currency_ok_iff cs v, validate_currency_err_iff cs v⟩

/-- Witness for C4: "usd" is accepted by a cache containing it. -/
theorem validate_currency_spec_witness :
    validate_currency ["usd", "eur"] "usd" = Except.ok "usd" :=
  (validate_currency_spec ["usd", "eur"] "usd").1.mpr (by decide)

/-- C9: every id returned by `validate_coin` is the id of some record in the
cached coin list given to it, and every code returned by `validate_currency`
is the input itself and a member of the cached currency list given to it. -/
theorem validation_invariant :
    (∀ (cs : List Coin) (v i : String), validate_coin cs v = Except.ok i →
      ∃ c, c ∈ cs ∧ c.id = i) ∧
    (∀ (cur : List String) (v w : String), validate_currency cur v = Except.ok w →
      w = v ∧ w ∈ cur) := by
  constructor
  · intro cs v i h
    exact validate_coin_ok_mem cs v i h
  · intro cur v w h
    obtain ⟨hw, hm⟩ := validate_currency_ok_val cur v w h
    exact ⟨hw, hw ▸ hm⟩

/-- Witness for C9: the id produced by validating "btc" is the id of a
record in the cache. -/
theorem validation_invariant_witness :
    ∃ c, c ∈ [Coin.mk "bitcoin" "btc" "Bitcoin"] ∧ c.id = "bitcoin" :=
  validation_invariant.1 [Coin.mk "bitcoin" "btc" "Bitcoin"] "btc" "bitcoin" rfl

/-- C5: `gains` computes `percent_change = (end_price - start_price) /
start_price * 100` and reports "increased" exactly when the change is
positive, "decreased" otherwise; with equal start and end prices the change
is 0 and the word is "decreased". -/
theorem gains_formula (sp ep : ℚ) :
    gainsPercent sp ep = (ep - sp) / sp * 100 ∧
    gainsWord sp ep = (if 0 < gainsPercent sp ep then "increased" else "decreased") ∧
    gainsPercent sp sp = 0 ∧
    gainsWord sp sp = "decreased" := by
  refine ⟨rfl, rfl, ?_, ?_⟩
  · simp [gainsPercent]
  · simp [gainsWord, gainsPercent]

/-- C6: `gains` fails with `BadParameter` when the end date precedes the
start date and when either date is after the current date, and in those
cases the result does not depend on the price oracle (the validation happens
before any price fetch). -/
theorem gains_date_validation (fetch fetch2 : ℤ → ℚ) (s e t : ℤ) :
    (e < s → gainsCmd fetch s e t = Except.error "Start date must come before end date") ∧
    (¬ e < s → (t < e ∨ t < s) →
      gainsCmd fetch s e t = Except.error "Dates cannot be in the future") ∧
    ((e < s ∨ t < e ∨ t < s) → gainsCmd fetch s e t = gainsCmd fetch2 s e t) := by
  refine ⟨?_, ?_, ?_⟩
  · intro h
    simp [gainsCmd, h]
  · intro h1 h2
    simp [gainsCmd, h1, h2]
  · intro h
    by_cases he : e < s
    · simp [gainsCmd, he]
    · have h2 : t < e ∨ t < s := by tauto
      simp [gainsCmd, he, h2]

/-- Witness for C6: start 5, end 3, today 10 is rejected for date order,
independently of the oracle. -/
theorem gains_date_validation_witness :
    gainsCmd (fun _ => (1 : ℚ)) 5 3 10 =
      Except.error "Start date must come before end date" :=
  (gains_date_validation (fun _ => (1 : ℚ)) (fun _ => (2 : ℚ)) 5 3 10).1 (by decide)

/-- C1 (code bug): on a cache miss for `coins`, `get_resources` fetches the
API coin list and evaluates `sorted(from_api)` over a list of dicts, which
raises `TypeError` as soon as the list holds two records; it does not
persist a sorted list nor return one, and the truncated cache file is left
invalid. Evaluated here at a concrete two-coin API answer. -/
theorem get_resources_coins_miss_crashes :
    get_resources_coins FileState.absent
      [Coin.mk "bitcoin" "btc" "Bitcoin", Coin.mk "ethereum" "eth" "Ethereum"] =
      ⟨Except.error "TypeError: dict is not orderable", FileState.corrupt, true⟩ := rfl

/-- C7 counterexample: two successive `get_resources("currencies")` calls
starting from an absent cache file do not return identical results when the
API list is not already sorted: the first call returns the unsorted fetched
list while the second returns the sorted persisted one. -/
theorem get_resources_twice_not_identical :
    (get_resources_currencies FileState.absent ["usd", "eur"]).result =
      Except.ok ["usd", "eur"] ∧
    (get_resources_currencies
        (get_resources_currencies FileState.absent ["usd", "eur"]).file
        ["usd", "eur"]).result = Except.ok ["eur", "usd"] ∧
    (Except.ok ["usd", "eur"] : Except String (List String)) ≠
      Except.ok ["eur", "usd"] := by
  have hs : pySorted ["usd", "eur"] = ["eur", "usd"] := by decide
  refine ⟨rfl, ?_, by simp⟩
  simp [get_resources_currencies, hs]

/-- C7 as amended: calling `get_resources("currencies")` twice from an
absent cache file performs no network call on the second call; the first
call returns the fetched list as the API produced it while the second
returns its sorted persisted form, so the two results are identical exactly
when the fetched list is already sorted (for `coins` the first call already
fails, see C1). -/
theorem get_resources_twice_currencies (api : List String) :
    (get_resources_currencies FileState.absent api).result = Except.ok api ∧
    (get_resources_currencies FileState.absent api).network = true ∧
    (get_resources_currencies
        (get_resources_currencies FileState.absent api).file api).network = false ∧
    (get_resources_currencies
        (get_resources_currencies FileState.absent api).file api).result =
      Except.ok (pySorted api) ∧
    (pySorted api = api →
      (get_resources_currencies
          (get_resources_currencies FileState.absent api).file api).result =
        (get_resources_currencies FileState.absent api).result) := by
  refine ⟨rfl, rfl, rfl, rfl, ?_⟩
  intro h
  simp [get_resources_currencies, h]

/-- Witness for C7 (amended): with an already-sorted API list the two calls
agree. -/
theorem get_resources_twice_currencies_witness :
    (get_resources_currencies
        (get_resources_currencies FileState.absent ["eur", "usd"]).file
        ["eur", "usd"]).result =
      (get_resources_currencies FileState.absent ["eur", "usd"]).result :=
  (get_resources_twice_currencies ["eur", "usd"]).2.2.2.2 (by decide)

/-- C2 counterexample: with an empty stored config, the option defaults
`settings['coin']` / `settings['currency']` evaluate to a `KeyError`, not to
the hardcoded values "bitcoin" / "usd": this version of the code has no
hardcoded fallback, so the invocation fails. -/
theorem option_default_empty_config :
    optionDefault [] "coin" = Except.error "KeyError: coin" ∧
    optionDefault [] "currency" = Except.error "KeyError: currency" ∧
    optionDefault [] "coin" ≠ Except.ok "bitcoin" ∧
    optionDefault [] "currency" ≠ Except.ok "usd" := by
  refine ⟨rfl, rfl, ?_, ?_⟩ <;> simp [optionDefault, lookupKey]

/-- C2 as amended: when the stored config lacks the `coin` (resp.
`currency`) key, evaluating the corresponding option default raises
`KeyError`, so the invocation fails on an empty config mapping; when the key
is present its stored value is used. -/
theorem option_default_resolution (settings : List (String × String)) :
    (lookupKey settings "coin" = none →
      optionDefault settings "coin" = Except.error "KeyError: coin") ∧
    (lookupKey settings "currency" = none →
      optionDefault settings "currency" = Except.error "KeyError: currency") ∧
    (∀ k v, lookupKey settings k = some v → optionDefault settings k = Except.ok v) := by
  refine ⟨?_, ?_, ?_⟩
  · intro h
    simp [optionDefault, h]
  · intro h
    simp [optionDefault, h]
  · intro k v h
    simp [optionDefault, h]

/-- Witness for C2 (amended): the empty config has no `coin` key and the
default evaluation errors. -/
theorem option_default_resolution_witness :
    optionDefault [] "coin" = Except.error "KeyError: coin" :=
  (option_default_resolution []).1 rfl

/-- C10: running the `config` subcommand with a valid currency default and
an invalid coin default raises `BadParameter` and leaves the persisted
config file unchanged; the currency update has been applied only to the
in-memory mapping, because the error is raised before the file write. -/
theorem config_invalid_coin_leaves_disk (all_currencies : List String)
    (all_coins : List Coin) (settings disk : List (String × String)) (c k : String)
    (hc : c ∈ all_currencies) (hk : ∀ x ∈ all_coins, matchesCoin k x = false) :
    configCmd all_currencies all_coins settings disk (some c) (some k) =
      ⟨setKey settings "currency" c, disk, some (k ++ " is not a valid coin")⟩ := by
  have hfind : all_coins.find? (fun x => matchesCoin k x) = none :=
    List.find?_eq_none.mpr (fun x hx => by simp [hk x hx])
  simp [configCmd, hc, hfind]

/-- Witness for C10: setting currency "usd" together with unknown coin
"dogecoin" errors and does not touch the stored file. -/
theorem config_invalid_coin_leaves_disk_witness :
    configCmd ["usd"] [Coin.mk "bitcoin" "btc" "Bitcoin"]
      [("coin", "bitcoin")] [("coin", "bitcoin")] (some "usd") (some "dogecoin") =
      ⟨setKey [("coin", "bitcoin")] "currency" "usd", [("coin", "bitcoin")],
        some ("dogecoin" ++ " is not a valid coin")⟩ :=
  config_invalid_coin_leaves_disk ["usd"] [Coin.mk "bitcoin" "btc" "Bitcoin"]
    [("coin", "bitcoin")] [("coin", "bitcoin")] "usd" "dogecoin"
    (by decide) (by decide)

lemma watchRun_succ (interval stop60 : ℤ) (fuel num_loops : ℕ) :
    watchRun interval stop60 (fuel + 1) num_loops =
      if stop60 ≤ interval * ((num_loops + 1 : ℕ) : ℤ) then some [num_loops + 1]
      else (watchRun interval stop60 fuel (num_loops + 1)).map
        (fun out => (num_loops + 1) :: out) := rfl

lemma watchRun_total (interval stop60 : ℤ) :
    ∀ (fuel k : ℕ), stop60 ≤ interval * ((k : ℤ) + (fuel : ℤ) + 1) →
      ∃ (n : ℕ) (out : List ℕ), watchRun interval stop60 (fuel + 1) k = some out ∧
        out.length = n - k ∧ k < n ∧ stop60 ≤ interval * (n : ℤ) ∧
        ∀ m : ℕ, k < m → m < n → interval * (m : ℤ) < stop60 := by
  intro fuel
  induction fuel with
  | zero =>
    intro k hk
    have hk1 : stop60 ≤ interval * ((k + 1 : ℕ) : ℤ) := by
      push_cast
      push_cast at hk
      linarith
    refine ⟨k + 1, [k + 1], ?_, by simp, Nat.lt_succ_self k, hk1, ?_⟩
    · rw [watchRun_succ, if_pos hk1]
    · intro m h1 h2
      omega
  | succ fuel ih =>
    intro k hk
    by_cases hstop : stop60 ≤ interval * ((k + 1 : ℕ) : ℤ)
    · refine ⟨k + 1, [k + 1], ?_, by simp, Nat.lt_succ_self k, hstop, ?_⟩
      · rw [watchRun_succ, if_pos hstop]
      · intro m h1 h2
        omega
    · have hk' : stop60 ≤ interval * (((k + 1 : ℕ) : ℤ) + (fuel : ℤ) + 1) := by
        push_cast
        push_cast at hk
        linarith
      obtain ⟨n, out, hrun, hlen, hkn, hbound, hmin⟩ := ih (k + 1) hk'
      refine ⟨n, (k + 1) :: out, ?_, ?_, by omega, hbound, ?_⟩
      · rw [watchRun_succ, if_neg hstop, hrun]
        rfl
      · simp only [List.length_cons, hlen]
        omega
      · intro m h1 h2
        rcases Nat.lt_or_ge (k + 1) m with hm | hm
        · exact hmin m hm h2
        · have hmk : m = k + 1 := by omega
          subst hmk
          exact lt_of_not_le hstop

/-- C8: with a positive interval and a given stop (in minutes), the watch
loop terminates, printing exactly one price line per iteration (`out` is the
list of lines, one per iteration, so its length is the iteration count), and
the number of iterations is the smallest n with `interval * n >= stop * 60`
among counts of at least one; in particular it always prints at least once.
The fuel `(stop * 60).toNat + 1` is an upper bound on the iterations needed. -/
theorem watch_loop_spec (interval stop : ℤ) (hi : 0 < interval) :
    ∃ (n : ℕ) (out : List ℕ),
      watchRun interval (stop * 60) ((stop * 60).toNat + 1) 0 = some out ∧
      out.length = n ∧ 1 ≤ n ∧ stop * 60 ≤ interval * (n : ℤ) ∧
      ∀ m : ℕ, 1 ≤ m → m < n → interval * (m : ℤ) < stop * 60 := by
  have h1 : (1 : ℤ) ≤ interval := hi
  have hT : stop * 60 ≤ ((stop * 60).toNat : ℤ) := Int.self_le_toNat _
  have hmul : (1 : ℤ) * (((stop * 60).toNat : ℤ) + 1) ≤
      interval * (((stop * 60).toNat : ℤ) + 1) :=
    mul_le_mul_of_nonneg_right h1 (by positivity)
  have hfuel : stop * 60 ≤
      interval * (((0 : ℕ) : ℤ) + (((stop * 60).toNat : ℕ) : ℤ) + 1) := by
    have heq : (((0 : ℕ) : ℤ) + (((stop * 60).toNat : ℕ) : ℤ) + 1) =
        (((stop * 60).toNat : ℤ) + 1) := by
      push_cast
      ring
    rw [heq]
    rw [one_mul] at hmul
    linarith
  obtain ⟨n, out, hrun, hlen, hkn, hbound, hmin⟩ :=
    watchRun_total interval (stop * 60) (stop * 60).toNat 0 hfuel
  refine ⟨n, out, hrun, by omega, by omega, hbound, ?_⟩
  intro m hm1 hm2
  exact hmin m (by omega) hm2

/-- Witness for C8: interval 15 seconds, stop after 1 minute. -/
theorem watch_loop_spec_witness :
    ∃ (n : ℕ) (out : List ℕ),
      watchRun 15 ((1 : ℤ) * 60) (((1 : ℤ) * 60).toNat + 1) 0 = some out ∧
      out.length = n ∧ 1 ≤ n ∧ (1 : ℤ) * 60 ≤ 15 * (n : ℤ) ∧
      ∀ m : ℕ, 1 ≤ m → m < n → (15 : ℤ) * (m : ℤ) < 1 * 60 :=
  watch_loop_spec 15 1 (by decide)
